import Mathlib

/-!
Shallow embedding of the bronze-layer streaming ingestion pipeline
(`src/scripts/bronze.py`): text normalization, row filtering, the
per-batch processing loop with shard rollover, and the run statistics
aggregate, together with proofs of the specification claims.
-/

namespace Bronze

/-- RE2's `\s` character class (`[\t\n\f\r ]`), as used by
`pc.replace_substring_regex(plain_text, r"\s+", " ")` in `bronze.py` line 165. -/
def isRe2Ws (c : Char) : Bool :=
  c == '\t' || c == '\n' || c == '\x0c' || c == '\r' || c == ' '

/-- Unicode `White_Space` characters, as trimmed by
`pc.utf8_trim_whitespace` in `bronze.py` line 166. -/
def isUnicodeWs (c : Char) : Bool :=
  (9 ≤ c.toNat && c.toNat ≤ 13) || c.toNat == 32 || c.toNat == 0x85 ||
  c.toNat == 0xA0 || c.toNat == 0x1680 ||
  (0x2000 ≤ c.toNat && c.toNat ≤ 0x200A) || c.toNat == 0x2028 ||
  c.toNat == 0x2029 || c.toNat == 0x202F || c.toNat == 0x205F ||
  c.toNat == 0x3000

/-- Replace every maximal run of `\s` characters with a single ASCII space:
the effect of `replace_substring_regex(·, r"\s+", " ")`. The boolean flag
records whether the previous character was part of a whitespace run. -/
def collapseWsAux : List Char → Bool → List Char
  | [], _ => []
  | c :: cs, prev =>
    if isRe2Ws c then
      if prev then collapseWsAux cs true
      else ' ' :: collapseWsAux cs true
    else c :: collapseWsAux cs false

def collapseWs (l : List Char) : List Char := collapseWsAux l false

/-- Drop leading Unicode whitespace. -/
def trimLeftWs (l : List Char) : List Char := l.dropWhile isUnicodeWs

/-- Drop trailing Unicode whitespace. -/
def trimRightWs (l : List Char) : List Char :=
  (l.reverse.dropWhile isUnicodeWs).reverse

/-- Both-ends trim, the effect of `utf8_trim_whitespace`. -/
def trimWs (l : List Char) : List Char := trimRightWs (trimLeftWs l)

/-- `bronze.py` lines 165-166: collapse whitespace runs to a single space,
then strip leading and trailing whitespace. -/
def normalizeText (s : String) : String := ⟨trimWs (collapseWs s.data)⟩

/-- `bronze.py` lines 152-155: a row is kept iff `plain_text` is valid
(non-null) and `utf8_length` (its length in code points) is positive. -/
def keepRow (o : Option String) : Bool :=
  match o with
  | none => false
  | some s => decide (0 < s.length)

/-- `NEEDED_COLS` from `bronze.py` line 9. -/
def NEEDED_COLS : List String :=
  ["plain_text", "id", "author_id", "author_str", "type", "date_created",
   "per_curiam"]

/-- The mutable statistics aggregate of `DataStreamingStats`
(`bronze.py` lines 11-20).  The timing fields (`download_time`,
`per_batch_time`) measure wall-clock time and are not modelled. -/
structure DataStreamingStats where
  bytes_streamed : Nat
  bytes_saved : Int
  total_rows : Nat
  total_rows_filtered : Nat
  parquet_files_created : Nat
  batches_processed : Nat
  deriving Repr, DecidableEq

def initStats : DataStreamingStats :=
  { bytes_streamed := 0, bytes_saved := 0, total_rows := 0,
    total_rows_filtered := 0, parquet_files_created := 0,
    batches_processed := 0 }

/-- `DataStreamingStats.get_space_saving` (`bronze.py` lines 26-30);
Python true division is modelled by division in `ℚ`. -/
def get_space_saving (s : DataStreamingStats) : ℚ :=
  if s.bytes_streamed = 0 then 0
  else (1 - (((s.bytes_streamed : ℚ) - (s.bytes_saved : ℚ)) /
    (s.bytes_streamed : ℚ))) * 100

/-- `DataStreamingStats.get_retention_rate` (`bronze.py` lines 32-36). -/
def get_retention_rate (s : DataStreamingStats) : ℚ :=
  if s.total_rows = 0 then 0
  else ((s.total_rows_filtered : ℚ) / (s.total_rows : ℚ)) * 100

/-- An input row: the `plain_text` column (nullable string, column 0 of
the projected schema) paired with the remaining six columns, abstracted
as a value of type `α`. -/
abbrev RowIn (α : Type) := Option String × α

/-- State of the main loop of `bronze.py` (lines 133-204): the shards
already closed by rollover (in index order), the rows written to the
currently open shard, plus the loop counters `rows_in_shard`, `shard_i`
and `total` and the statistics aggregate. -/
structure PipeState (α : Type) where
  closedShards : List (List (String × α))
  current : List (String × α)
  rowsInShard : Nat
  shardIndex : Nat
  total : Nat
  stats : DataStreamingStats
  deriving Repr

/-- `total = rows_in_shard = shard_i = 0`, fresh stats, writer open on
shard 0 (`bronze.py` lines 133-135). -/
def initState (α : Type) : PipeState α :=
  { closedShards := [], current := [], rowsInShard := 0, shardIndex := 0,
    total := 0, stats := initStats }

/-- Rows of a batch surviving the filter of `bronze.py` lines 151-156. -/
def batchSurvivors (b : List (RowIn α)) : List (RowIn α) :=
  b.filter (fun r => keepRow r.1)

/-- The transform applied to a surviving row before it is written: the
`plain_text` column (column 0) is replaced by its normalized value
(`set_column` at `bronze.py` line 180); the other columns are unchanged. -/
def normRow (r : RowIn α) : String × α := (normalizeText (r.1.getD ""), r.2)

/-- The rows of `normalized_tbl`, the table written for a batch. -/
def batchWritten (b : List (RowIn α)) : List (String × α) :=
  (batchSurvivors b).map normRow

/-- `original_size` (`bronze.py` line 169): `len(str(text))` summed over
the filtered, pre-normalization `plain_text` values — lengths in code
points. -/
def batchOrigSize (b : List (RowIn α)) : Nat :=
  ((batchSurvivors b).map (fun r => (r.1.getD "").length)).sum

/-- `normalized_size` (`bronze.py` line 170). -/
def batchNormSize (b : List (RowIn α)) : Nat :=
  ((batchWritten b).map (fun r => r.1.length)).sum

/-- Stats update of `bronze.py` lines 174-177 followed by the write and
the counter updates of lines 183-185: append the normalized rows to the
open shard and advance `rows_in_shard` and `total`. -/
def writeBatch (st : PipeState α) (b : List (RowIn α)) : PipeState α :=
  { closedShards := st.closedShards
    current := st.current ++ batchWritten b
    rowsInShard := st.rowsInShard + (batchSurvivors b).length
    shardIndex := st.shardIndex
    total := st.total + (batchSurvivors b).length
    stats :=
      { bytes_streamed := st.stats.bytes_streamed + batchOrigSize b
        bytes_saved := st.stats.bytes_saved +
          ((batchOrigSize b : Int) - (batchNormSize b : Int))
        total_rows := st.stats.total_rows + b.length
        total_rows_filtered :=
          st.stats.total_rows_filtered + (batchSurvivors b).length
        parquet_files_created := st.stats.parquet_files_created
        batches_processed := st.stats.batches_processed } }

/-- Shard rollover, `bronze.py` lines 186-191: close the open shard,
open the next one, reset `rows_in_shard`, count a created parquet
file. -/
def rollOver (st : PipeState α) : PipeState α :=
  { closedShards := st.closedShards ++ [st.current]
    current := []
    rowsInShard := 0
    shardIndex := st.shardIndex + 1
    total := st.total
    stats :=
      { st.stats with
        parquet_files_created := st.stats.parquet_files_created + 1 } }

/-- `stats.batches_processed += 1` (`bronze.py` line 196). -/
def bumpBatches (st : PipeState α) : PipeState α :=
  { st with stats :=
      { st.stats with
        batches_processed := st.stats.batches_processed + 1 } }

/-- One iteration of the `for batch in reader` loop
(`bronze.py` lines 138-204):
skip the batch if it has zero rows (line 147; the `plain_text` column is
always present after projection) or if no row survives the filter
(line 158); otherwise update the statistics (lines 174-177), write the
normalized rows to the open shard (lines 183-185) and roll the shard
over when `rows_in_shard >= rows_per_shard` (lines 186-191). -/
def processBatch (t : Nat) (st : PipeState α) (b : List (RowIn α)) :
    PipeState α :=
  if b.length = 0 then st
  else if (batchSurvivors b).length = 0 then st
  else if t ≤ (writeBatch st b).rowsInShard then
    bumpBatches (rollOver (writeBatch st b))
  else
    bumpBatches (writeBatch st b)

/-- The whole processing loop over the decoded batch sequence. -/
def runPipeline (t : Nat) (bs : List (List (RowIn α))) : PipeState α :=
  bs.foldl (processBatch t) (initState α)

/-- All rows on disk, concatenated in shard-index order: the closed
shards followed by the content of the shard that is still open (closed
by the `finally` at `bronze.py` line 207). -/
def allWrittenRows (st : PipeState α) : List (String × α) :=
  st.closedShards.flatten ++ st.current

/-- Row counts of the shard files on disk at the end of a run: one file
for every closed shard plus the file of the still-open writer (a shard
file is created when its `ParquetWriter` is constructed). -/
def shardFileRowCounts (st : PipeState α) : List Nat :=
  (st.closedShards ++ [st.current]).map List.length

/-- `pacsv.open_csv` (`bronze.py` line 128): with
`include_columns = NEEDED_COLS`, the reader fails at open time — before
the first `ParquetWriter` is constructed at line 133 — when the header
lacks any required column. -/
def openCsvCheck (header : List String) : Except String Unit :=
  if NEEDED_COLS.all (fun c => header.contains c) then Except.ok ()
  else Except.error "SchemaError"

/-- A run from a raw source: the header check happens strictly before
the processing loop and before any shard file is created; an `error`
result means zero shard files were produced. -/
def runFromSource (t : Nat) (header : List String)
    (bs : List (List (RowIn Unit))) : Except String (PipeState Unit) :=
  match openCsvCheck header with
  | Except.error e => Except.error e
  | Except.ok _ => Except.ok (runPipeline t bs)

/-! ### Writer lifecycle under exceptions

A projection of lines 133-207 of `bronze.py` onto the `ParquetWriter`
lifecycle, with a fatal exception allowed at each point of the loop body
where it affects which writers exist: before the write succeeds
(any error while pulling or transforming the batch, or a failed
`write_table`), after the write, or inside the rollover after
`writer.close()` (line 187) succeeded but before/while the new
`ParquetWriter` (line 190) is constructed.  The `finally` at line 207
closes the writer variable on every exit path; `ParquetWriter.close` is
a no-op on an already-closed writer (it is guarded by `is_open`), so a
close is recorded only when it finalizes an open writer. -/

inductive AbortPt
  | preWrite
  | postWrite
  | rollAfterClose
  deriving DecidableEq, Repr

/-- Writer-lifecycle state: shard indices of the writers constructed so
far and of the writers finalized so far (both most recent first), the
index and open/closed status of the writer currently bound to the
`writer` variable, and `rows_in_shard`. -/
structure WriterTrace where
  createdRev : List Nat
  closedRev : List Nat
  curIdx : Nat
  curOpen : Bool
  rowsInShard : Nat
  deriving Repr, DecidableEq

/-- `writer.close()`: finalizes the writer iff it is still open. -/
def wClose (w : WriterTrace) : WriterTrace :=
  if w.curOpen then
    { w with closedRev := w.curIdx :: w.closedRev, curOpen := false }
  else w

/-- Writer state just after `writer = pq.ParquetWriter(shard_path(0))`
(`bronze.py` line 133). -/
def initWriter : WriterTrace :=
  { createdRev := [0], closedRev := [], curIdx := 0, curOpen := true,
    rowsInShard := 0 }

/-- `writer.write_table(normalized_tbl)` followed by
`rows_in_shard += filtered_tbl.num_rows`. -/
def addRows (w : WriterTrace) (k : Nat) : WriterTrace :=
  { w with rowsInShard := w.rowsInShard + k }

/-- Lines 188-190: bump `shard_i` and bind `writer` to a freshly
constructed `ParquetWriter` on the next shard path. -/
def openNext (w : WriterTrace) : WriterTrace :=
  { createdRev := (w.curIdx + 1) :: w.createdRev
    closedRev := w.closedRev
    curIdx := w.curIdx + 1
    curOpen := true
    rowsInShard := 0 }

/-- One loop iteration as seen by the writer: `k` is the batch's
surviving row count (`k = 0` means the batch is skipped and the writer
is untouched); `ab p` tells whether a fatal exception is raised at point
`p` of this iteration.  An `error` result carries the state at the point
the exception was raised. -/
def stepWriter (t : Nat) (ab : AbortPt → Bool) (w : WriterTrace)
    (k : Nat) : Except WriterTrace WriterTrace :=
  if k = 0 then Except.ok w
  else if ab AbortPt.preWrite then Except.error w
  else if ab AbortPt.postWrite then Except.error (addRows w k)
  else if t ≤ (addRows w k).rowsInShard then
    if ab AbortPt.rollAfterClose then Except.error (wClose (addRows w k))
    else Except.ok (openNext (wClose (addRows w k)))
  else Except.ok (addRows w k)

/-- Whether a fatal exception is raised at point `p` of batch `i`. -/
def abortAt (abort : Option (Nat × AbortPt)) (i : Nat) (p : AbortPt) :
    Bool :=
  match abort with
  | some (j, q) => decide (j = i) && decide (q = p)
  | none => false

/-- Run the loop over the surviving-row counts `ks`, starting at batch
index `i`; `abort = some (j, p)` raises a fatal exception at point `p`
of batch `j`.  On both normal end-of-stream and on an exception, the
`finally` close is applied to the writer variable. -/
def runWriterAux (t : Nat) (abort : Option (Nat × AbortPt)) :
    List Nat → Nat → WriterTrace → WriterTrace
  | [], _, w => wClose w
  | k :: ks, i, w =>
    match stepWriter t (abortAt abort i) w k with
    | Except.error w1 => wClose w1
    | Except.ok w1 => runWriterAux t abort ks (i + 1) w1

/-- The writer lifecycle of a whole run over batches `bs`, possibly
aborted by a fatal exception as described by `abort`. -/
def runWriter (t : Nat) (abort : Option (Nat × AbortPt))
    (bs : List (List (Option String))) : WriterTrace :=
  runWriterAux t abort (bs.map (fun b => (b.filter keepRow).length)) 0
    initWriter

/-! ### C3: every opened shard writer is finalized exactly once -/

/-- Loop invariant of the writer lifecycle: the `writer` variable is
bound to an open writer, the writers constructed so far are the closed
ones plus the open one, and the constructed indices are exactly
`curIdx, curIdx - 1, ..., 0`. -/
def WInv (w : WriterTrace) : Prop :=
  w.curOpen = true ∧ w.createdRev = w.curIdx :: w.closedRev ∧
  w.createdRev = (List.range (w.curIdx + 1)).reverse

/-- At the end of a run (after the `finally`), every constructed writer
has been finalized, in construction order, and none twice. -/
def WFinal (w : WriterTrace) : Prop :=
  w.closedRev = w.createdRev ∧ w.createdRev.Nodup

/-! ### The loop invariant -/

/-- Invariant of the processing loop (`bronze.py` lines 136-204):
retained rows never exceed decoded rows, saved bytes are nonnegative and
never exceed streamed bytes, `parquet_files_created` counts exactly the
completed rollovers (`shard_i`), the closed shards are the `shard_i`
first shard files, the open shard holds `rows_in_shard` rows, every
closed shard holds at least the threshold, and the open shard is always
below the threshold (when the threshold is positive). -/
def PipeInv (t : Nat) (st : PipeState α) : Prop :=
  st.stats.total_rows_filtered ≤ st.stats.total_rows ∧
  0 ≤ st.stats.bytes_saved ∧
  st.stats.bytes_saved ≤ (st.stats.bytes_streamed : Int) ∧
  st.stats.parquet_files_created = st.shardIndex ∧
  st.closedShards.length = st.shardIndex ∧
  st.current.length = st.rowsInShard ∧
  (∀ l ∈ st.closedShards, t ≤ l.length) ∧
  (0 < t → st.rowsInShard < t)

/-! ### Run-level statistics equalities -/

/-- Decoded rows actually counted by `stats.total_rows`: `tbl.num_rows`
is added at line 176 only for batches that pass both skip checks, i.e.
only when at least one row survives the filter. -/
def batchRowsCounted (b : List (RowIn α)) : Nat :=
  if (batchSurvivors b).length = 0 then 0 else b.length

/-! ### C7: retention-rate denominator -/

/-- Modelled from the spec: the retention rate as the claim defines it
— rows retained after filtering divided by **all** rows decoded
(including the rows of batches in which no row survived), scaled to
percent, `0` when nothing was decoded.  Stated from the claim's words,
for comparison with `get_retention_rate`. -/
def specRetentionRate (bs : List (List (RowIn α))) : ℚ :=
  if bs.flatten.length = 0 then 0
  else ((bs.flatten.filter (fun r => keepRow r.1)).length : ℚ) /
    (bs.flatten.length : ℚ) * 100

/-! ### Whitespace structure of collapsed strings -/

/-- Two adjacent characters are never both `\s` whitespace. -/
def noWsPair (a b : Char) : Prop :=
  ¬(isRe2Ws a = true ∧ isRe2Ws b = true)

/-- No two adjacent Unicode-whitespace characters ("no repeated internal
whitespace"). -/
def noAdjacentWs : List Char → Bool
  | [] => true
  | [_] => true
  | a :: b :: rest => (!(isUnicodeWs a && isUnicodeWs b)) && noAdjacentWs (b :: rest)

/-- The first character, if any, is not Unicode whitespace. -/
def headNotWs (l : List Char) : Bool :=
  match l.head? with
  | some c => !isUnicodeWs c
  | none => true

/-- The last character, if any, is not Unicode whitespace. -/
def lastNotWs (l : List Char) : Bool :=
  match l.getLast? with
  | some c => !isUnicodeWs c
  | none => true

/-- A text value with no leading/trailing and no repeated internal
whitespace (the precondition of the claim's `bytes_saved = 0` case). -/
def alreadyTidy (s : String) : Bool :=
  noAdjacentWs s.data && headNotWs s.data && lastNotWs s.data

/-! ### C6: sizes are measured in code points; `bytes_saved` behaviour -/

/-- Modelled from the spec: the UTF-8 encoded byte length of one code
point (what the claim's "UTF-8 byte lengths" denotes). -/
def specUtf8CharBytes (c : Char) : Nat :=
  if c.toNat < 0x80 then 1
  else if c.toNat < 0x800 then 2
  else if c.toNat < 0x10000 then 3
  else 4

/-- Modelled from the spec: the UTF-8 byte length of a string, for
comparison with the code's `len(str(text))` (which counts code
points). -/
def specUtf8Bytes (s : String) : Nat :=
  (s.data.map specUtf8CharBytes).sum

example : normalizeText "Hello   \n\n world  " = "Hello world" := by decide
example : keepRow (some "a") = true ∧ keepRow (some "") = false ∧
    keepRow none = false := by decide

/-! ### C5: the row filter -/

/-- C5: a row is kept by the filter stage iff its `plain_text` value is
non-null and its length in Unicode code points (`pc.utf8_length`) is
positive; the 3-row scenario with an empty-string row 2 and a null
row 3 yields a filtered batch containing only row 1. -/
theorem filter_keeps_iff_nonnull_nonempty :
    (∀ o : Option String, keepRow o = true ↔ ∃ s, o = some s ∧ 0 < s.length) ∧
    batchSurvivors [((some "a" : Option String), (1 : Nat)), (some "", 2),
      (none, 3)] = [(some "a", 1)] := by
  refine ⟨fun o => ?_, by decide⟩
  cases o with
  | none => simp [keepRow]
  | some s => simp [keepRow]

/-! ### C4: schema validation fails fast -/

/-- C4: whenever the source header is missing at least one column of
`NEEDED_COLS`, the run fails with a schema error at `open_csv` time,
before the processing loop runs and before any shard file is created
(the `error` result of `runFromSource` carries no pipeline state). -/
theorem missing_column_schema_error (t : Nat) (header : List String)
    (bs : List (List (RowIn Unit)))
    (h : ∃ c ∈ NEEDED_COLS, header.contains c = false) :
    runFromSource t header bs = Except.error "SchemaError" := by
  obtain ⟨c, hc, hcon⟩ := h
  unfold runFromSource openCsvCheck
  rw [if_neg]
  intro hall
  rw [List.all_eq_true] at hall
  exact absurd (hall c hc) (by rw [hcon]; exact Bool.false_ne_true)

/-- Witness for C4 at the spec's scenario: the header
`id,plain_text,author_id,type` is missing `author_str` (among others). -/
theorem missing_column_schema_error_witness :
    (∃ c ∈ NEEDED_COLS,
      (["id", "plain_text", "author_id", "type"] : List String).contains c
        = false) ∧
    runFromSource 2 ["id", "plain_text", "author_id", "type"] [] =
      Except.error "SchemaError" :=
  ⟨by decide, missing_column_schema_error 2 _ [] (by decide)⟩

theorem wInv_init : WInv initWriter := by
  refine ⟨rfl, rfl, ?_⟩; decide

theorem wFinal_of_wClose_inv {w : WriterTrace} (h : WInv w) :
    WFinal (wClose w) := by
  obtain ⟨hopen, hcons, hrange⟩ := h
  unfold wClose
  rw [hopen]
  simp only [if_true]
  refine ⟨hcons.symm, ?_⟩
  rw [hrange]
  exact (List.nodup_reverse).mpr (List.nodup_range _)

theorem wFinal_wClose_of_final {w : WriterTrace} (h : WFinal w)
    (hclosed : w.curOpen = false) : WFinal (wClose w) := by
  unfold wClose
  rw [hclosed]
  simpa using h

theorem wInv_addRows {w : WriterTrace} (h : WInv w) (k : Nat) :
    WInv (addRows w k) := h

theorem wClose_of_open {w : WriterTrace} (h : w.curOpen = true) :
    wClose w =
      ⟨w.createdRev, w.curIdx :: w.closedRev, w.curIdx, false,
        w.rowsInShard⟩ := by
  unfold wClose
  rw [h]
  simp

/-- Rolling over from an invariant state reaches an invariant state. -/
theorem wInv_openNext_wClose {w : WriterTrace} (h : WInv w) :
    WInv (openNext (wClose w)) := by
  obtain ⟨hopen, hcons, hrange⟩ := h
  rw [wClose_of_open hopen]
  refine ⟨rfl, ?_, ?_⟩
  · simpa [openNext] using hcons
  · simp only [openNext]
    rw [hrange, List.range_succ (n := w.curIdx + 1)]
    simp

/-- An exception raised mid-rollover (shard closed, next writer not yet
constructed) still leads to a `WFinal` state after the `finally`. -/
theorem wFinal_rollAbort {w : WriterTrace} (h : WInv w) :
    WFinal (wClose (wClose w)) := by
  obtain ⟨hopen, hcons, hrange⟩ := h
  rw [wClose_of_open hopen]
  refine wFinal_wClose_of_final ⟨hcons.symm, ?_⟩ rfl
  rw [hrange]
  exact (List.nodup_reverse).mpr (List.nodup_range _)

/-- A successful iteration preserves the invariant. -/
theorem stepWriter_ok (t : Nat) (ab : AbortPt → Bool)
    {w w' : WriterTrace} (k : Nat) (h : WInv w)
    (hw : stepWriter t ab w k = Except.ok w') : WInv w' := by
  unfold stepWriter at hw
  split at hw
  · cases hw; exact h
  split at hw
  · exact Except.noConfusion hw
  split at hw
  · exact Except.noConfusion hw
  split at hw
  · split at hw
    · exact Except.noConfusion hw
    · cases hw; exact wInv_openNext_wClose (wInv_addRows h k)
  · cases hw; exact wInv_addRows h k

/-- A raised exception leaves a state whose `finally`-close satisfies
`WFinal`. -/
theorem stepWriter_error (t : Nat) (ab : AbortPt → Bool)
    {w w1 : WriterTrace} (k : Nat) (h : WInv w)
    (hw : stepWriter t ab w k = Except.error w1) : WFinal (wClose w1) := by
  unfold stepWriter at hw
  split at hw
  · exact Except.noConfusion hw
  split at hw
  · cases hw; exact wFinal_of_wClose_inv h
  split at hw
  · cases hw; exact wFinal_of_wClose_inv (wInv_addRows h k)
  split at hw
  · split at hw
    · cases hw; exact wFinal_rollAbort (wInv_addRows h k)
    · exact Except.noConfusion hw
  · exact Except.noConfusion hw

theorem runWriterAux_final (t : Nat) (abort : Option (Nat × AbortPt)) :
    ∀ (ks : List Nat) (i : Nat) (w : WriterTrace), WInv w →
      WFinal (runWriterAux t abort ks i w) := by
  intro ks
  induction ks with
  | nil => intro i w h; exact wFinal_of_wClose_inv h
  | cons k ks ih =>
    intro i w h
    unfold runWriterAux
    cases hstep : stepWriter t (abortAt abort i) w k with
    | error w1 => exact stepWriter_error t (abortAt abort i) k h hstep
    | ok w1 => exact ih (i + 1) w1 (stepWriter_ok t (abortAt abort i) k h hstep)

/-- C3: on every exit path of the processing loop — normal
end-of-stream, a fatal error raised before or after a write, or an
error during rollover after the old shard was closed — every shard
writer that was constructed is finalized exactly once: the list of
finalized writer indices equals the list of constructed indices, which
has no duplicates. -/
theorem every_opened_writer_closed_once (t : Nat)
    (abort : Option (Nat × AbortPt)) (bs : List (List (Option String))) :
    (runWriter t abort bs).closedRev = (runWriter t abort bs).createdRev ∧
    (runWriter t abort bs).createdRev.Nodup :=
  runWriterAux_final t abort _ 0 initWriter wInv_init

/-! ### Whitespace normalization: length facts -/

theorem collapseWsAux_length_le (l : List Char) (b : Bool) :
    (collapseWsAux l b).length ≤ l.length := by
  induction l generalizing b with
  | nil => simp [collapseWsAux]
  | cons c cs ih =>
    unfold collapseWsAux
    split
    · split
      · exact le_trans (ih true) (Nat.le_succ _)
      · simpa using ih true
    · simpa using ih false

theorem trimLeftWs_length_le (l : List Char) :
    (trimLeftWs l).length ≤ l.length :=
  (List.dropWhile_sublist _).length_le

theorem trimRightWs_length_le (l : List Char) :
    (trimRightWs l).length ≤ l.length := by
  unfold trimRightWs
  rw [List.length_reverse]
  calc (l.reverse.dropWhile isUnicodeWs).length ≤ l.reverse.length :=
        (List.dropWhile_sublist _).length_le
    _ = l.length := List.length_reverse l

theorem trimWs_length_le (l : List Char) : (trimWs l).length ≤ l.length :=
  le_trans (trimRightWs_length_le _) (trimLeftWs_length_le _)

/-- Normalization never increases the length in code points. -/
theorem normalizeText_length_le (s : String) :
    (normalizeText s).length ≤ s.length :=
  le_trans (trimWs_length_le _) (collapseWsAux_length_le _ _)

theorem batchNormSize_le_batchOrigSize (b : List (RowIn α)) :
    batchNormSize b ≤ batchOrigSize b := by
  unfold batchNormSize batchOrigSize batchWritten
  rw [List.map_map]
  exact List.sum_le_sum fun r _ => normalizeText_length_le _

/-! ### Degenerate batches -/

theorem batchSurvivors_eq_nil {b : List (RowIn α)}
    (h : (batchSurvivors b).length = 0) : batchSurvivors b = [] :=
  List.length_eq_zero.mp h

theorem batchWritten_eq_nil {b : List (RowIn α)}
    (h : (batchSurvivors b).length = 0) : batchWritten b = [] := by
  unfold batchWritten
  rw [batchSurvivors_eq_nil h]
  rfl

theorem batchOrigSize_eq_zero {b : List (RowIn α)}
    (h : (batchSurvivors b).length = 0) : batchOrigSize b = 0 := by
  unfold batchOrigSize
  rw [batchSurvivors_eq_nil h]
  rfl

theorem batchNormSize_eq_zero {b : List (RowIn α)}
    (h : (batchSurvivors b).length = 0) : batchNormSize b = 0 := by
  unfold batchNormSize
  rw [batchWritten_eq_nil h]
  rfl

theorem batchWritten_length (b : List (RowIn α)) :
    (batchWritten b).length = (batchSurvivors b).length :=
  List.length_map _ _

theorem batchSurvivors_length_le (b : List (RowIn α)) :
    (batchSurvivors b).length ≤ b.length :=
  List.length_filter_le _ _

theorem pipeInv_init (t : Nat) (α : Type) : PipeInv t (initState α) := by
  refine ⟨le_refl _, le_refl _, le_refl _, rfl, rfl, rfl, ?_, fun ht => ht⟩
  intro l hl
  cases hl

theorem pipeInv_processBatch {t : Nat} {st : PipeState α}
    (h : PipeInv t st) (b : List (RowIn α)) :
    PipeInv t (processBatch t st b) := by
  obtain ⟨h1, h2, h3, h4, h5, h6, h7, h8⟩ := h
  have hk : (batchSurvivors b).length ≤ b.length := batchSurvivors_length_le b
  have hsz : batchNormSize b ≤ batchOrigSize b := batchNormSize_le_batchOrigSize b
  unfold processBatch
  split
  · exact ⟨h1, h2, h3, h4, h5, h6, h7, h8⟩
  split
  · exact ⟨h1, h2, h3, h4, h5, h6, h7, h8⟩
  split
  · -- rollover branch
    rename_i hne hsurv hroll
    unfold writeBatch at hroll
    dsimp only at hroll
    unfold PipeInv bumpBatches rollOver writeBatch
    dsimp only
    refine ⟨by omega, by omega, by omega, by omega, ?_, rfl, ?_, fun ht => ht⟩
    · simp [h5]
    · intro l hl
      rcases List.mem_append.mp hl with hl | hl
      · exact h7 l hl
      · rcases List.mem_singleton.mp hl with rfl
        rw [List.length_append, batchWritten_length, h6]
        exact hroll
  · -- no-rollover branch
    rename_i hne hsurv hroll
    unfold writeBatch at hroll
    dsimp only at hroll
    unfold PipeInv bumpBatches writeBatch
    dsimp only
    refine ⟨by omega, by omega, by omega, h4, h5, ?_, h7, ?_⟩
    · rw [List.length_append, batchWritten_length, h6]
    · intro ht
      omega

theorem pipeInv_foldl {t : Nat} (bs : List (List (RowIn α))) :
    ∀ st : PipeState α, PipeInv t st →
      PipeInv t (bs.foldl (processBatch t) st) := by
  induction bs with
  | nil => intro st h; exact h
  | cons b bs ih =>
    intro st h
    exact ih _ (pipeInv_processBatch h b)

/-- The invariant holds at the end (and, since `bs` is arbitrary, at
every reachable state) of every run. -/
theorem runPipeline_inv (t : Nat) (bs : List (List (RowIn α))) :
    PipeInv t (runPipeline t bs) :=
  pipeInv_foldl bs _ (pipeInv_init t α)

/-! ### C10: the parquet-files counter undercounts by one -/

/-- C10: throughout every run, `parquet_files_created` equals the
number of completed rollovers (`shard_i`); the number of shard files
actually created on disk is `shard_i + 1` (the writer opened at startup
plus one per rollover), so the reported count is always one less than
the number of shard files. -/
theorem parquet_counter_counts_rollovers_only (α : Type) (t : Nat)
    (bs : List (List (RowIn α))) :
    (runPipeline t bs).stats.parquet_files_created =
      (runPipeline t bs).shardIndex ∧
    (shardFileRowCounts (runPipeline t bs)).length =
      (runPipeline t bs).shardIndex + 1 := by
  obtain ⟨-, -, -, h4, h5, -, -, -⟩ := runPipeline_inv t bs
  refine ⟨h4, ?_⟩
  unfold shardFileRowCounts
  rw [List.length_map, List.length_append, h5]
  rfl

/-! ### C8: derived percentage metrics are total and bounded -/

theorem get_retention_rate_bounds (s : DataStreamingStats)
    (h : s.total_rows_filtered ≤ s.total_rows) :
    0 ≤ get_retention_rate s ∧ get_retention_rate s ≤ 100 := by
  unfold get_retention_rate
  split
  · norm_num
  · rename_i hz
    have hpos : (0 : ℚ) < (s.total_rows : ℚ) := by
      exact_mod_cast Nat.pos_of_ne_zero hz
    have hle : (s.total_rows_filtered : ℚ) / (s.total_rows : ℚ) ≤ 1 := by
      rw [div_le_one hpos]
      exact_mod_cast h
    have hge : (0 : ℚ) ≤ (s.total_rows_filtered : ℚ) / (s.total_rows : ℚ) := by
      positivity
    constructor
    · nlinarith
    · nlinarith

theorem get_space_saving_bounds (s : DataStreamingStats)
    (h0 : 0 ≤ s.bytes_saved)
    (h1 : s.bytes_saved ≤ (s.bytes_streamed : Int)) :
    0 ≤ get_space_saving s ∧ get_space_saving s ≤ 100 := by
  unfold get_space_saving
  split
  · norm_num
  · rename_i hz
    have hpos : (0 : ℚ) < (s.bytes_streamed : ℚ) := by
      exact_mod_cast Nat.pos_of_ne_zero hz
    have heq : 1 - ((s.bytes_streamed : ℚ) - (s.bytes_saved : ℚ)) /
        (s.bytes_streamed : ℚ) = (s.bytes_saved : ℚ) / (s.bytes_streamed : ℚ) := by
      field_simp
    rw [heq]
    have hb0 : (0 : ℚ) ≤ (s.bytes_saved : ℚ) := by exact_mod_cast h0
    have hb1 : (s.bytes_saved : ℚ) ≤ (s.bytes_streamed : ℚ) := by
      exact_mod_cast h1
    have hle : (s.bytes_saved : ℚ) / (s.bytes_streamed : ℚ) ≤ 1 := by
      rw [div_le_one hpos]
      exact hb1
    have hge : (0 : ℚ) ≤ (s.bytes_saved : ℚ) / (s.bytes_streamed : ℚ) := by
      positivity
    constructor
    · nlinarith
    · nlinarith

/-- C8: in the statistics aggregate produced by any run (hence by any
reachable prefix of a run), `get_retention_rate` and `get_space_saving`
lie in `[0, 100]`, and each returns `0` when its denominator
(`total_rows`, respectively `bytes_streamed`) is `0` — neither divides
by zero. -/
theorem rates_bounded_and_total (α : Type) (t : Nat)
    (bs : List (List (RowIn α))) :
    0 ≤ get_retention_rate (runPipeline t bs).stats ∧
    get_retention_rate (runPipeline t bs).stats ≤ 100 ∧
    0 ≤ get_space_saving (runPipeline t bs).stats ∧
    get_space_saving (runPipeline t bs).stats ≤ 100 ∧
    ((runPipeline t bs).stats.total_rows = 0 →
      get_retention_rate (runPipeline t bs).stats = 0) ∧
    ((runPipeline t bs).stats.bytes_streamed = 0 →
      get_space_saving (runPipeline t bs).stats = 0) := by
  obtain ⟨h1, h2, h3, -, -, -, -, -⟩ := runPipeline_inv t bs
  obtain ⟨hr0, hr1⟩ := get_retention_rate_bounds _ h1
  obtain ⟨hs0, hs1⟩ := get_space_saving_bounds _ h2 h3
  refine ⟨hr0, hr1, hs0, hs1, fun hz => ?_, fun hz => ?_⟩
  · unfold get_retention_rate
    rw [if_pos hz]
  · unfold get_space_saving
    rw [if_pos hz]

/-- Witness for C8 on the empty run: both denominators are zero and
both metrics return `0` (and the bounds hold). -/
theorem rates_bounded_and_total_witness :
    0 ≤ get_retention_rate
        (runPipeline 2 ([] : List (List (RowIn Unit)))).stats ∧
    get_retention_rate
        (runPipeline 2 ([] : List (List (RowIn Unit)))).stats = 0 ∧
    get_space_saving
        (runPipeline 2 ([] : List (List (RowIn Unit)))).stats = 0 := by
  have h := rates_bounded_and_total Unit 2 []
  exact ⟨h.1, h.2.2.2.2.1 rfl, h.2.2.2.2.2 rfl⟩

/-! ### C1: shard sizes -/

/-- C1 counterexample: with `rows_per_shard_threshold = 2` and one batch
of three surviving rows, the run produces two shard files with row
counts `[3, 0]` — shard 0 receives all three rows (not exactly the
threshold), and shard 1 is created empty (not with row 3). -/
theorem shard_exact_size_counterexample :
    shardFileRowCounts (runPipeline 2
      ([[(some "a", ()), (some "b", ()), (some "c", ())]] :
        List (List (RowIn Unit)))) = [3, 0] ∧
    ¬ shardFileRowCounts (runPipeline 2
      ([[(some "a", ()), (some "b", ()), (some "c", ())]] :
        List (List (RowIn Unit)))) = [2, 1] := by decide

/-- C1 (amended): rollover happens at whole-batch granularity. For
every run with positive threshold `t`, every shard except the last
contains **at least** `t` rows, and the last (still-open) shard
contains fewer than `t` rows, possibly zero; in the scenario with
`t = 2` and one batch of three surviving rows, shard 0 receives all
three rows, shard 1 is created empty, and exactly two shard files
exist. -/
theorem shard_size_invariant (α : Type) (t : Nat)
    (bs : List (List (RowIn α))) (ht : 0 < t) :
    (((runPipeline t bs).closedShards.map List.length).all
        (fun n => decide (t ≤ n)) = true) ∧
    (runPipeline t bs).rowsInShard < t ∧
    (runPipeline t bs).current.length = (runPipeline t bs).rowsInShard ∧
    shardFileRowCounts (runPipeline 2
      ([[(some "a", ()), (some "b", ()), (some "c", ())]] :
        List (List (RowIn Unit)))) = [3, 0] := by
  obtain ⟨-, -, -, -, -, h6, h7, h8⟩ := runPipeline_inv t bs
  refine ⟨?_, h8 ht, h6, by decide⟩
  rw [List.all_eq_true]
  intro n hn
  rw [List.mem_map] at hn
  obtain ⟨l, hl, rfl⟩ := hn
  exact decide_eq_true (h7 l hl)

/-! ### C2: the writer preserves the surviving-row sequence -/

theorem batchSurvivors_append (a b : List (RowIn α)) :
    batchSurvivors (a ++ b) = batchSurvivors a ++ batchSurvivors b :=
  List.filter_append a b

theorem batchWritten_append (a b : List (RowIn α)) :
    batchWritten (a ++ b) = batchWritten a ++ batchWritten b := by
  unfold batchWritten
  rw [batchSurvivors_append, List.map_append]

theorem allWrittenRows_processBatch (t : Nat) (st : PipeState α)
    (b : List (RowIn α)) :
    allWrittenRows (processBatch t st b) =
      allWrittenRows st ++ batchWritten b := by
  unfold processBatch
  split
  · rename_i hz
    have hb : b = [] := List.length_eq_zero.mp hz
    subst hb
    rw [batchWritten_eq_nil (b := ([] : List (RowIn α))) rfl, List.append_nil]
  split
  · rename_i _ hz
    rw [batchWritten_eq_nil hz, List.append_nil]
  split
  · unfold allWrittenRows bumpBatches rollOver writeBatch
    dsimp only
    rw [List.flatten_append]
    simp [List.append_assoc]
  · unfold allWrittenRows bumpBatches writeBatch
    dsimp only
    rw [List.append_assoc]

theorem allWrittenRows_foldl (t : Nat) (bs : List (List (RowIn α))) :
    ∀ st : PipeState α,
      allWrittenRows (bs.foldl (processBatch t) st) =
        allWrittenRows st ++ batchWritten bs.flatten := by
  induction bs with
  | nil =>
    intro st
    rw [List.foldl_nil, List.flatten_nil,
      batchWritten_eq_nil (b := ([] : List (RowIn α))) rfl, List.append_nil]
  | cons b bs ih =>
    intro st
    rw [List.foldl_cons, ih, allWrittenRows_processBatch,
      List.flatten_cons, batchWritten_append, List.append_assoc]

/-- C2: the rows written across all shards of a run, concatenated in
shard-index order, are exactly the surviving rows of the decoded batch
stream, in original decode order, each with its text normalized and its
other columns untouched — nothing is duplicated, dropped or reordered
by the writer, so rows of shard `N` were decoded strictly before rows
of shard `N + 1`. -/
theorem writer_round_trip (α : Type) (t : Nat)
    (bs : List (List (RowIn α))) :
    allWrittenRows (runPipeline t bs) =
      (bs.flatten.filter (fun r => keepRow r.1)).map normRow := by
  unfold runPipeline
  rw [allWrittenRows_foldl]
  have hinit : allWrittenRows (initState α) = [] := rfl
  rw [hinit, List.nil_append]
  rfl

/-- Witness for C1 (amended) at the scenario input. -/
theorem shard_size_invariant_witness :
    0 < 2 ∧
    ((((runPipeline 2 ([[(some "a", ()), (some "b", ()), (some "c", ())]] :
          List (List (RowIn Unit)))).closedShards.map List.length).all
        (fun n => decide (2 ≤ n)) = true) ∧
    (runPipeline 2 ([[(some "a", ()), (some "b", ()), (some "c", ())]] :
        List (List (RowIn Unit)))).rowsInShard < 2 ∧
    (runPipeline 2 ([[(some "a", ()), (some "b", ()), (some "c", ())]] :
        List (List (RowIn Unit)))).current.length =
      (runPipeline 2 ([[(some "a", ()), (some "b", ()), (some "c", ())]] :
        List (List (RowIn Unit)))).rowsInShard ∧
    shardFileRowCounts (runPipeline 2
      ([[(some "a", ()), (some "b", ()), (some "c", ())]] :
        List (List (RowIn Unit)))) = [3, 0]) :=
  ⟨by decide, shard_size_invariant Unit 2 _ (by decide)⟩

theorem batchOrigSize_append (a b : List (RowIn α)) :
    batchOrigSize (a ++ b) = batchOrigSize a + batchOrigSize b := by
  unfold batchOrigSize
  rw [batchSurvivors_append, List.map_append, List.sum_append]

theorem batchNormSize_append (a b : List (RowIn α)) :
    batchNormSize (a ++ b) = batchNormSize a + batchNormSize b := by
  unfold batchNormSize
  rw [batchWritten_append, List.map_append, List.sum_append]

theorem stats_processBatch (t : Nat) (st : PipeState α)
    (b : List (RowIn α)) :
    (processBatch t st b).stats.total_rows =
      st.stats.total_rows + batchRowsCounted b ∧
    (processBatch t st b).stats.total_rows_filtered =
      st.stats.total_rows_filtered + (batchSurvivors b).length ∧
    (processBatch t st b).stats.bytes_streamed =
      st.stats.bytes_streamed + batchOrigSize b ∧
    (processBatch t st b).stats.bytes_saved =
      st.stats.bytes_saved +
        ((batchOrigSize b : Int) - (batchNormSize b : Int)) := by
  unfold processBatch batchRowsCounted
  split
  · rename_i hz
    have hb : b = [] := List.length_eq_zero.mp hz
    subst hb
    refine ⟨by simp, by simp [batchSurvivors], ?_, ?_⟩
    · have : batchOrigSize ([] : List (RowIn α)) = 0 := rfl
      simp [this]
    · have h1 : batchOrigSize ([] : List (RowIn α)) = 0 := rfl
      have h2 : batchNormSize ([] : List (RowIn α)) = 0 := rfl
      simp [h1, h2]
  split
  · rename_i _ hz
    rw [hz, batchOrigSize_eq_zero hz, batchNormSize_eq_zero hz]
    simp
  split
  · unfold bumpBatches rollOver writeBatch
    dsimp only
    exact ⟨rfl, rfl, rfl, rfl⟩
  · unfold bumpBatches writeBatch
    dsimp only
    exact ⟨rfl, rfl, rfl, rfl⟩

theorem stats_foldl (t : Nat) (bs : List (List (RowIn α))) :
    ∀ st : PipeState α,
      (bs.foldl (processBatch t) st).stats.total_rows =
        st.stats.total_rows + (bs.map batchRowsCounted).sum ∧
      (bs.foldl (processBatch t) st).stats.total_rows_filtered =
        st.stats.total_rows_filtered + (batchSurvivors bs.flatten).length ∧
      (bs.foldl (processBatch t) st).stats.bytes_streamed =
        st.stats.bytes_streamed + batchOrigSize bs.flatten ∧
      (bs.foldl (processBatch t) st).stats.bytes_saved =
        st.stats.bytes_saved +
          ((batchOrigSize bs.flatten : Int) -
            (batchNormSize bs.flatten : Int)) := by
  induction bs with
  | nil =>
    intro st
    have h1 : batchOrigSize ([] : List (RowIn α)) = 0 := rfl
    have h2 : batchNormSize ([] : List (RowIn α)) = 0 := rfl
    refine ⟨by simp, by simp [batchSurvivors], by simp [h1], ?_⟩
    simp [h1, h2]
  | cons b bs ih =>
    intro st
    obtain ⟨i1, i2, i3, i4⟩ := ih (processBatch t st b)
    obtain ⟨s1, s2, s3, s4⟩ := stats_processBatch t st b
    rw [List.foldl_cons]
    refine ⟨?_, ?_, ?_, ?_⟩
    · rw [i1, s1, List.map_cons, List.sum_cons]
      omega
    · rw [i2, s2, List.flatten_cons, batchSurvivors_append,
        List.length_append]
      omega
    · rw [i3, s3, List.flatten_cons, batchOrigSize_append]
      omega
    · rw [i4, s4, List.flatten_cons, batchOrigSize_append,
        batchNormSize_append]
      push_cast
      ring

/-- The final statistics of a run, as functions of the batch stream. -/
theorem runPipeline_stats (t : Nat) (bs : List (List (RowIn α))) :
    (runPipeline t bs).stats.total_rows = (bs.map batchRowsCounted).sum ∧
    (runPipeline t bs).stats.total_rows_filtered =
      (batchSurvivors bs.flatten).length ∧
    (runPipeline t bs).stats.bytes_streamed = batchOrigSize bs.flatten ∧
    (runPipeline t bs).stats.bytes_saved =
      (batchOrigSize bs.flatten : Int) - (batchNormSize bs.flatten : Int) := by
  obtain ⟨h1, h2, h3, h4⟩ := stats_foldl t bs (initState α)
  unfold runPipeline
  refine ⟨?_, ?_, ?_, ?_⟩
  · rw [h1]; simp [initState, initStats]
  · rw [h2]; simp [initState, initStats]
  · rw [h3]; simp [initState, initStats]
  · rw [h4]; simp [initState, initStats]

/-- C7 counterexample: a run decoding two one-row batches, of which the
second is fully filtered out (null text).  Two rows were decoded and
one retained, so the claimed rate is `50`, but the code never counts
the second batch's row (`continue` at line 160 precedes the
`stats.total_rows` update at line 176) and reports `100`. -/
theorem retention_rate_counterexample :
    get_retention_rate (runPipeline 100
      ([[(some "a", ())], [(none, ())]] :
        List (List (RowIn Unit)))).stats = 100 ∧
    specRetentionRate
      ([[(some "a", ())], [(none, ())]] :
        List (List (RowIn Unit))) = 50 ∧
    (100 : ℚ) ≠ 50 := by
  refine ⟨?_, ?_, by norm_num⟩
  · have hs : (runPipeline 100
        ([[(some "a", ())], [(none, ())]] :
          List (List (RowIn Unit)))).stats =
        { bytes_streamed := 1, bytes_saved := 0, total_rows := 1,
          total_rows_filtered := 1, parquet_files_created := 0,
          batches_processed := 1 } := by decide
    rw [hs]
    unfold get_retention_rate
    norm_num
  · unfold specRetentionRate
    have h1 : ([[(some "a", ())], [(none, ())]] :
        List (List (RowIn Unit))).flatten.length = 2 := by decide
    have h2 : (([[(some "a", ())], [(none, ())]] :
        List (List (RowIn Unit))).flatten.filter
          (fun r => keepRow r.1)).length = 1 := by decide
    rw [h1, h2]
    norm_num

/-- C7 (amended): the reported retention rate equals rows retained
divided by the rows decoded **in batches with at least one surviving
row** (batches whose rows were all filtered out are skipped before the
`total_rows` update and never enter the denominator), scaled to
percent, and `0` when that denominator is `0`. -/
theorem retention_rate_formula (α : Type) (t : Nat)
    (bs : List (List (RowIn α))) :
    (runPipeline t bs).stats.total_rows = (bs.map batchRowsCounted).sum ∧
    (runPipeline t bs).stats.total_rows_filtered =
      (bs.flatten.filter (fun r => keepRow r.1)).length ∧
    get_retention_rate (runPipeline t bs).stats =
      (if (bs.map batchRowsCounted).sum = 0 then 0
       else ((bs.flatten.filter (fun r => keepRow r.1)).length : ℚ) /
         ((bs.map batchRowsCounted).sum : ℚ) * 100) := by
  obtain ⟨h1, h2, -, -⟩ := runPipeline_stats t bs
  refine ⟨h1, h2, ?_⟩
  unfold get_retention_rate
  rw [h1, h2]
  rfl

/-- RE2's `\s` characters are Unicode whitespace. -/
theorem re2Ws_imp_unicodeWs {c : Char} (h : isRe2Ws c = true) :
    isUnicodeWs c = true := by
  unfold isRe2Ws at h
  simp only [Bool.or_eq_true, beq_iff_eq] at h
  rcases h with (((rfl | rfl) | rfl) | rfl) | rfl <;> decide

/-- Every `\s` character in a collapsed string is the ASCII space. -/
theorem collapse_allSpace :
    ∀ (l : List Char) (b : Bool) (c : Char), c ∈ collapseWsAux l b →
      isRe2Ws c = true → c = ' ' := by
  intro l
  induction l with
  | nil => intro b c hc; cases hc
  | cons d cs ih =>
    intro b c hc hre
    unfold collapseWsAux at hc
    by_cases hd : isRe2Ws d = true
    · rw [if_pos hd] at hc
      cases b with
      | true => exact ih true c hc hre
      | false =>
        rcases List.mem_cons.mp hc with rfl | hc
        · rfl
        · exact ih true c hc hre
    · rw [if_neg hd] at hc
      rcases List.mem_cons.mp hc with rfl | hc
      · exact absurd hre hd
      · exact ih false c hc hre

/-- After a whitespace run was entered, the next emitted character is
not whitespace. -/
theorem collapse_head_true :
    ∀ (l : List Char) (c : Char),
      (collapseWsAux l true).head? = some c → isRe2Ws c = false := by
  intro l
  induction l with
  | nil => intro c hc; cases hc
  | cons d cs ih =>
    intro c hc
    unfold collapseWsAux at hc
    by_cases hd : isRe2Ws d = true
    · rw [if_pos hd] at hc
      exact ih c hc
    · rw [if_neg hd] at hc
      cases hc
      exact Bool.eq_false_iff.mpr hd

/-- A collapsed string never contains two adjacent `\s` characters. -/
theorem collapse_chain (l : List Char) (b : Bool) :
    List.Chain' noWsPair (collapseWsAux l b) := by
  induction l generalizing b with
  | nil => exact List.chain'_nil
  | cons d cs ih =>
    unfold collapseWsAux
    by_cases hd : isRe2Ws d = true
    · rw [if_pos hd]
      cases b with
      | true => exact ih true
      | false =>
        rw [if_neg Bool.false_ne_true, List.chain'_cons']
        refine ⟨?_, ih true⟩
        intro y hy
        have := collapse_head_true cs y hy
        intro hcon
        rw [this] at hcon
        exact Bool.false_ne_true hcon.2
    · rw [if_neg hd]
      rw [List.chain'_cons']
      refine ⟨?_, ih false⟩
      intro y hy hcon
      exact hd hcon.1

/-- The collapse is the identity on strings whose `\s` characters are
single ASCII spaces separated by non-whitespace. -/
theorem collapse_fixpoint :
    ∀ (l : List Char) (b : Bool),
      (∀ c ∈ l, isRe2Ws c = true → c = ' ') →
      List.Chain' noWsPair l →
      (b = true → ∀ c, l.head? = some c → isRe2Ws c = false) →
      collapseWsAux l b = l := by
  intro l
  induction l with
  | nil => intro b _ _ _; rfl
  | cons d cs ih =>
    intro b hall hch hhd
    unfold collapseWsAux
    by_cases hd : isRe2Ws d = true
    · rw [if_pos hd]
      cases b with
      | true =>
        have := hhd rfl d rfl
        rw [this] at hd
        exact absurd hd Bool.false_ne_true
      | false =>
        have hd' : d = ' ' := hall d (List.mem_cons_self d cs) hd
        have htail : collapseWsAux cs true = cs := by
          refine ih true (fun c hc => hall c (List.mem_cons_of_mem d hc)) hch.tail ?_
          intro _ c hc
          have hR := (List.chain'_cons'.mp hch).1 c hc
          by_contra hcon
          exact hR ⟨hd, Bool.not_eq_false _ |>.mp hcon⟩
        rw [if_neg Bool.false_ne_true, htail, hd']
    · rw [if_neg hd]
      have htail : collapseWsAux cs false = cs := by
        refine ih false (fun c hc => hall c (List.mem_cons_of_mem d hc)) hch.tail ?_
        intro h
        exact absurd h Bool.false_ne_true
      rw [htail]

theorem chain'_dropWhile {R : Char → Char → Prop} (p : Char → Bool) :
    ∀ l : List Char, List.Chain' R l → List.Chain' R (l.dropWhile p) := by
  intro l
  induction l with
  | nil => intro h; exact h
  | cons d cs ih =>
    intro h
    rw [List.dropWhile_cons]
    split
    · exact ih h.tail
    · exact h

theorem chain'_noWsPair_reverse (l : List Char) :
    List.Chain' noWsPair l.reverse ↔ List.Chain' noWsPair l := by
  rw [List.chain'_reverse]
  constructor
  · intro h
    exact h.imp (fun a b hab hcon => hab ⟨hcon.2, hcon.1⟩)
  · intro h
    exact h.imp (fun a b hab hcon => hab ⟨hcon.2, hcon.1⟩)

theorem chain'_trimWs {m : List Char} (h : List.Chain' noWsPair m) :
    List.Chain' noWsPair (trimWs m) := by
  unfold trimWs trimRightWs trimLeftWs
  rw [chain'_noWsPair_reverse]
  apply chain'_dropWhile
  rw [chain'_noWsPair_reverse]
  apply chain'_dropWhile
  exact h

theorem mem_of_mem_trimWs {c : Char} {m : List Char}
    (h : c ∈ trimWs m) : c ∈ m := by
  unfold trimWs trimRightWs trimLeftWs at h
  rw [List.mem_reverse] at h
  have h1 := (List.dropWhile_sublist _).subset h
  rw [List.mem_reverse] at h1
  exact (List.dropWhile_sublist _).subset h1

theorem dropWhile_head_not (p : Char → Bool) :
    ∀ (l : List Char) (c : Char),
      (l.dropWhile p).head? = some c → p c = false := by
  intro l
  induction l with
  | nil => intro c hc; cases hc
  | cons d cs ih =>
    intro c hc
    rw [List.dropWhile_cons] at hc
    split at hc
    · exact ih c hc
    · cases hc
      rename_i hd
      exact Bool.eq_false_iff.mpr hd

theorem dropWhile_eq_self_of_head (p : Char → Bool) (l : List Char)
    (h : ∀ c, l.head? = some c → p c = false) : l.dropWhile p = l := by
  cases l with
  | nil => rfl
  | cons d cs =>
    rw [List.dropWhile_cons, if_neg]
    rw [h d rfl]
    exact Bool.false_ne_true

/-- Trimming a string with no leading and no trailing Unicode
whitespace is the identity. -/
theorem trimWs_eq_self {l : List Char}
    (hh : ∀ c, l.head? = some c → isUnicodeWs c = false)
    (hl : ∀ c, l.getLast? = some c → isUnicodeWs c = false) :
    trimWs l = l := by
  unfold trimWs trimLeftWs trimRightWs
  rw [dropWhile_eq_self_of_head _ _ hh]
  rw [dropWhile_eq_self_of_head _ _ ?hrev]
  · exact List.reverse_reverse l
  case hrev =>
    intro c hc
    rw [List.head?_reverse] at hc
    exact hl c hc

theorem trimRightWs_head? {z : List Char} {c : Char}
    (hc : (trimRightWs z).head? = some c) : z.head? = some c := by
  unfold trimRightWs at hc
  obtain ⟨u, hu⟩ := List.dropWhile_suffix (l := z.reverse) isUnicodeWs
  have hz : z = (z.reverse.dropWhile isUnicodeWs).reverse ++ u.reverse := by
    rw [← List.reverse_append, hu, List.reverse_reverse]
  rw [hz, List.head?_append, hc]
  rfl

/-- The first character of a trimmed string is not whitespace. -/
theorem trimWs_head_not (m : List Char) :
    ∀ c, (trimWs m).head? = some c → isUnicodeWs c = false := by
  intro c hc
  unfold trimWs at hc
  exact dropWhile_head_not isUnicodeWs m c (trimRightWs_head? hc)

/-- The last character of a trimmed string is not whitespace. -/
theorem trimWs_getLast_not (m : List Char) :
    ∀ c, (trimWs m).getLast? = some c → isUnicodeWs c = false := by
  intro c hc
  unfold trimWs trimRightWs at hc
  rw [List.getLast?_reverse] at hc
  exact dropWhile_head_not isUnicodeWs _ c hc

/-- C9: the normalization of `bronze.py` lines 165-166 — collapse every
maximal `\s+` run to a single ASCII space, then trim leading and
trailing whitespace — is idempotent: normalizing an already-normalized
value changes nothing. -/
theorem normalize_idempotent (s : String) :
    normalizeText (normalizeText s) = normalizeText s := by
  have hall : ∀ c ∈ trimWs (collapseWs s.data), isRe2Ws c = true → c = ' ' :=
    fun c hc h => collapse_allSpace s.data false c (mem_of_mem_trimWs hc) h
  have hch : List.Chain' noWsPair (trimWs (collapseWs s.data)) :=
    chain'_trimWs (collapse_chain s.data false)
  have hcol : collapseWs (trimWs (collapseWs s.data)) =
      trimWs (collapseWs s.data) :=
    collapse_fixpoint _ false hall hch
      (fun h => absurd h Bool.false_ne_true)
  have htrim : trimWs (trimWs (collapseWs s.data)) =
      trimWs (collapseWs s.data) :=
    trimWs_eq_self (trimWs_head_not _) (trimWs_getLast_not _)
  show (⟨trimWs (collapseWs (trimWs (collapseWs s.data)))⟩ : String) =
    ⟨trimWs (collapseWs s.data)⟩
  rw [hcol, htrim]

/-- Collapsing a string with no two adjacent `\s` characters preserves
its length (every maximal run has length one and is replaced by the
single character ASCII space). -/
theorem collapse_len_eq :
    ∀ (l : List Char) (b : Bool), List.Chain' noWsPair l →
      (b = true → ∀ c, l.head? = some c → isRe2Ws c = false) →
      (collapseWsAux l b).length = l.length := by
  intro l
  induction l with
  | nil => intro b _ _; rfl
  | cons d cs ih =>
    intro b hch hhd
    unfold collapseWsAux
    by_cases hd : isRe2Ws d = true
    · rw [if_pos hd]
      cases b with
      | true =>
        have := hhd rfl d rfl
        rw [this] at hd
        exact absurd hd Bool.false_ne_true
      | false =>
        rw [if_neg Bool.false_ne_true]
        have htail : (collapseWsAux cs true).length = cs.length := by
          refine ih true hch.tail ?_
          intro _ c hc
          have hR := (List.chain'_cons'.mp hch).1 c hc
          by_contra hcon
          exact hR ⟨hd, Bool.not_eq_false _ |>.mp hcon⟩
        simp [htail]
    · rw [if_neg hd]
      have htail : (collapseWsAux cs false).length = cs.length :=
        ih false hch.tail (fun h => absurd h Bool.false_ne_true)
      simp [htail]

/-- If the first character is not whitespace, collapsing keeps it. -/
theorem collapse_head_of_not_ws {l : List Char} {c : Char}
    (hc : l.head? = some c) (h : isRe2Ws c = false) :
    (collapseWsAux l false).head? = some c := by
  cases l with
  | nil => cases hc
  | cons d cs =>
    cases hc
    unfold collapseWsAux
    rw [if_neg (by rw [h]; exact Bool.false_ne_true)]
    rfl

/-- A string containing a non-whitespace character collapses to a
nonempty string. -/
theorem collapse_ne_nil :
    ∀ (l : List Char) (b : Bool),
      (∃ c ∈ l, isRe2Ws c = false) → collapseWsAux l b ≠ [] := by
  intro l
  induction l with
  | nil =>
    intro b h
    obtain ⟨c, hc, -⟩ := h
    cases hc
  | cons d cs ih =>
    intro b h
    unfold collapseWsAux
    by_cases hd : isRe2Ws d = true
    · rw [if_pos hd]
      have hcs : ∃ c ∈ cs, isRe2Ws c = false := by
        obtain ⟨c, hc, hcf⟩ := h
        rcases List.mem_cons.mp hc with rfl | hc
        · rw [hd] at hcf; exact absurd hcf (by simp)
        · exact ⟨c, hc, hcf⟩
      cases b with
      | true => exact ih true hcs
      | false =>
        rw [if_neg Bool.false_ne_true]
        exact List.cons_ne_nil _ _
    · rw [if_neg hd]
      exact List.cons_ne_nil _ _

/-- `getLast?` of a cons with nonempty tail. -/
theorem getLast?_cons_ne_nil {a : Char} {m : List Char} (h : m ≠ []) :
    (a :: m).getLast? = m.getLast? := by
  obtain ⟨x, xs, rfl⟩ := List.exists_cons_of_ne_nil h
  rw [List.getLast?_cons_cons]

/-- A non-Unicode-whitespace character is not `\s` whitespace. -/
theorem not_unicodeWs_imp_not_re2Ws {c : Char}
    (h : isUnicodeWs c = false) : isRe2Ws c = false := by
  by_contra hcon
  rw [re2Ws_imp_unicodeWs (Bool.not_eq_false _ |>.mp hcon)] at h
  simp at h

/-- If the last character is not whitespace, collapsing preserves the
last character. -/
theorem collapse_getLast :
    ∀ (l : List Char) (b : Bool),
      (∀ c, l.getLast? = some c → isRe2Ws c = false) →
      (collapseWsAux l b).getLast? = l.getLast? := by
  intro l
  induction l with
  | nil => intro b _; rfl
  | cons d cs ih =>
    intro b hlast
    cases cs with
    | nil =>
      have hd : isRe2Ws d = false := hlast d rfl
      unfold collapseWsAux
      rw [if_neg (by rw [hd]; exact Bool.false_ne_true)]
      rfl
    | cons e es =>
      have hcs : ∀ c, (e :: es).getLast? = some c → isRe2Ws c = false := by
        intro c hc
        refine hlast c ?_
        rw [List.getLast?_cons_cons]
        exact hc
      have hex : ∃ c ∈ (e :: es), isRe2Ws c = false := by
        obtain ⟨c, hc⟩ : ∃ c, (e :: es).getLast? = some c := by
          cases hgl : (e :: es).getLast? with
          | none =>
            rw [List.getLast?_eq_none_iff] at hgl
            cases hgl
          | some c => exact ⟨c, rfl⟩
        exact ⟨c, List.mem_of_getLast?_eq_some hc, hcs c hc⟩
      unfold collapseWsAux
      by_cases hd : isRe2Ws d = true
      · rw [if_pos hd]
        cases b with
        | true =>
          rw [if_pos rfl, ih true hcs, List.getLast?_cons_cons]
        | false =>
          rw [if_neg Bool.false_ne_true,
            getLast?_cons_ne_nil (collapse_ne_nil _ true hex),
            ih true hcs, List.getLast?_cons_cons]
      · rw [if_neg hd,
          getLast?_cons_ne_nil (collapse_ne_nil _ false hex),
          ih false hcs, List.getLast?_cons_cons]

/-- `collapse_head_of_not_ws`, phrased for `collapseWs`. -/
theorem collapseWs_head_of_not_ws {l : List Char} {c : Char}
    (hc : l.head? = some c) (h : isRe2Ws c = false) :
    (collapseWs l).head? = some c :=
  collapse_head_of_not_ws hc h

/-- `collapse_getLast`, phrased for `collapseWs`. -/
theorem collapseWs_getLast (l : List Char)
    (h : ∀ c, l.getLast? = some c → isRe2Ws c = false) :
    (collapseWs l).getLast? = l.getLast? :=
  collapse_getLast l false h

/-- "No repeated internal whitespace" implies no two adjacent `\s`
characters. -/
theorem noAdjacentWs_chain :
    ∀ l : List Char, noAdjacentWs l = true → List.Chain' noWsPair l := by
  intro l
  induction l with
  | nil => intro _; exact List.chain'_nil
  | cons a l ih =>
    intro h
    cases l with
    | nil => exact List.chain'_singleton a
    | cons b rest =>
      unfold noAdjacentWs at h
      rw [Bool.and_eq_true] at h
      rw [List.chain'_cons]
      refine ⟨?_, ih h.2⟩
      intro hcon
      have ha := re2Ws_imp_unicodeWs hcon.1
      have hb := re2Ws_imp_unicodeWs hcon.2
      rw [ha, hb] at h
      simp at h

theorem headNotWs_prop {l : List Char} (h : headNotWs l = true) :
    ∀ c, l.head? = some c → isUnicodeWs c = false := by
  intro c hc
  unfold headNotWs at h
  rw [hc] at h
  simpa using h

theorem lastNotWs_prop {l : List Char} (h : lastNotWs l = true) :
    ∀ c, l.getLast? = some c → isUnicodeWs c = false := by
  intro c hc
  unfold lastNotWs at h
  rw [hc] at h
  simpa using h

/-- On a tidy text value (no leading/trailing, no repeated internal
whitespace) normalization preserves the length in code points, so it
saves zero bytes as the code measures them. -/
theorem alreadyTidy_norm_length (s : String) (h : alreadyTidy s = true) :
    (normalizeText s).length = s.length := by
  unfold alreadyTidy at h
  rw [Bool.and_eq_true, Bool.and_eq_true] at h
  obtain ⟨⟨hadj, hhead⟩, hlast⟩ := h
  have hch : List.Chain' noWsPair s.data := noAdjacentWs_chain _ hadj
  have hheadP := headNotWs_prop hhead
  have hlastP := lastNotWs_prop hlast
  have hlen : (collapseWs s.data).length = s.data.length :=
    collapse_len_eq _ false hch (fun hf => absurd hf Bool.false_ne_true)
  have hheadC : ∀ c, (collapseWs s.data).head? = some c →
      isUnicodeWs c = false := by
    intro c hc
    cases hd : s.data.head? with
    | none =>
      rw [List.head?_eq_none_iff] at hd
      rw [show collapseWs s.data = [] from by rw [hd]; rfl] at hc
      cases hc
    | some d =>
      have hdws : isUnicodeWs d = false := hheadP d hd
      rw [collapseWs_head_of_not_ws hd
        (not_unicodeWs_imp_not_re2Ws hdws)] at hc
      cases hc
      exact hdws
  have hlastC : ∀ c, (collapseWs s.data).getLast? = some c →
      isUnicodeWs c = false := by
    intro c hc
    have hre : ∀ c, s.data.getLast? = some c → isRe2Ws c = false :=
      fun c hc => not_unicodeWs_imp_not_re2Ws (hlastP c hc)
    rw [collapseWs_getLast _ hre] at hc
    exact hlastP c hc
  have htr : trimWs (collapseWs s.data) = collapseWs s.data :=
    trimWs_eq_self hheadC hlastC
  show (trimWs (collapseWs s.data)).length = s.data.length
  rw [htr, hlen]

/-- C6 counterexample: the code's `original_size` (`len(str(text))`,
line 169) measures code points, not UTF-8 bytes: for the single kept
row `"é"` the accumulated `bytes_streamed` is `1`, while the sum of
UTF-8 byte lengths of the same pre-normalization texts is `2`. -/
theorem byte_sizes_counterexample :
    (runPipeline 5 ([[(some "é", ())]] :
      List (List (RowIn Unit)))).stats.bytes_streamed = 1 ∧
    ((([[(some "é", ())]] : List (List (RowIn Unit))).flatten.filter
        (fun r => keepRow r.1)).map
      (fun r => specUtf8Bytes (r.1.getD ""))).sum = 2 ∧
    (1 : Nat) ≠ 2 := by decide

/-- C6 (amended): `original_size` and `normalized_size` are the sums of
the **code-point** lengths (Python `len`) of the kept text values
before resp. after normalization; `bytes_saved` is their difference,
never negative, and zero whenever every text value already has no
leading/trailing and no repeated internal whitespace. -/
theorem byte_sizes_in_codepoints (α : Type) (t : Nat)
    (bs : List (List (RowIn α))) :
    (runPipeline t bs).stats.bytes_streamed =
      ((bs.flatten.filter (fun r => keepRow r.1)).map
        (fun r => (r.1.getD "").length)).sum ∧
    (runPipeline t bs).stats.bytes_saved =
      (((bs.flatten.filter (fun r => keepRow r.1)).map
        (fun r => (r.1.getD "").length)).sum : Int) -
      (((bs.flatten.filter (fun r => keepRow r.1)).map
        (fun r => (normalizeText (r.1.getD "")).length)).sum : Int) ∧
    0 ≤ (runPipeline t bs).stats.bytes_saved ∧
    (bs.flatten.all (fun r => alreadyTidy (r.1.getD "")) = true →
      (runPipeline t bs).stats.bytes_saved = 0) := by
  obtain ⟨-, -, h3, h4⟩ := runPipeline_stats t bs
  have hnorm : batchNormSize bs.flatten =
      ((bs.flatten.filter (fun r => keepRow r.1)).map
        (fun r => (normalizeText (r.1.getD "")).length)).sum := by
    unfold batchNormSize batchWritten
    rw [List.map_map]
    rfl
  have hle := batchNormSize_le_batchOrigSize bs.flatten
  have hcast : ∀ (m : List Nat), ((m.sum : Nat) : Int) = (m.map (Nat.cast)).sum :=
    fun m => Nat.cast_list_sum m
  refine ⟨by rw [h3]; rfl, ?_, by rw [h4]; omega, ?_⟩
  · rw [h4, hnorm]
    congr 1
    unfold batchOrigSize
    rw [hcast, List.map_map]
    rfl
  intro htidy
  have heq : batchNormSize bs.flatten = batchOrigSize bs.flatten := by
    unfold batchNormSize batchWritten batchOrigSize
    rw [List.map_map]
    apply congrArg List.sum
    apply List.map_congr_left
    intro r hr
    have hrmem : r ∈ bs.flatten :=
      (List.mem_filter.mp hr).1
    rw [List.all_eq_true] at htidy
    exact alreadyTidy_norm_length _ (htidy r hrmem)
  rw [h4, heq]
  omega

/-- Witness for C6 (amended): a run over one tidy one-row batch. -/
theorem byte_sizes_in_codepoints_witness :
    (([[(some "ab", ())]] : List (List (RowIn Unit))).flatten.all
      (fun r => alreadyTidy (r.1.getD "")) = true) ∧
    ((runPipeline 3 ([[(some "ab", ())]] :
        List (List (RowIn Unit)))).stats.bytes_streamed =
      ((([[(some "ab", ())]] : List (List (RowIn Unit))).flatten.filter
          (fun r => keepRow r.1)).map
        (fun r => (r.1.getD "").length)).sum ∧
    (runPipeline 3 ([[(some "ab", ())]] :
        List (List (RowIn Unit)))).stats.bytes_saved =
      (((([[(some "ab", ())]] : List (List (RowIn Unit))).flatten.filter
          (fun r => keepRow r.1)).map
        (fun r => (r.1.getD "").length)).sum : Int) -
      (((([[(some "ab", ())]] : List (List (RowIn Unit))).flatten.filter
          (fun r => keepRow r.1)).map
        (fun r => (normalizeText (r.1.getD "")).length)).sum : Int) ∧
    0 ≤ (runPipeline 3 ([[(some "ab", ())]] :
        List (List (RowIn Unit)))).stats.bytes_saved ∧
    (([[(some "ab", ())]] : List (List (RowIn Unit))).flatten.all
        (fun r => alreadyTidy (r.1.getD "")) = true →
      (runPipeline 3 ([[(some "ab", ())]] :
        List (List (RowIn Unit)))).stats.bytes_saved = 0)) :=
  ⟨by decide, byte_sizes_in_codepoints Unit 3 _⟩

end Bronze
